import Mathlib

/-!
Shallow embedding of the chess rules engine in
`src/chess-engine/src/chess.rs` (react-shahmat).

The Rust code is a pseudo-legal chess engine: an 8×8 grid of optional
pieces, per-piece move generation, a validating move executor, and a
FEN exporter.  Mutation (`&mut self`) is embedded as explicit state
passing: `make_move` returns the error (if any) together with the
resulting board, the board being unchanged on the error paths exactly
as in the source, where every `return Err(..)` precedes all mutation.

`u8`/`i8` coordinates are embedded as `Fin 8` for stored positions
(the `Position` constructor enforces `0..=7`, and every `Position`
reaching the board accessors satisfies it) and as `Int` with explicit
range checks for the signed candidate arithmetic (`as i8 + offset`).
-/

namespace Shahmat

inductive PieceType where
  | Pawn
  | Rook
  | Knight
  | Bishop
  | Queen
  | King
deriving DecidableEq, Repr

inductive Color where
  | White
  | Black
deriving DecidableEq, Repr

structure Piece where
  piece_type : PieceType
  color : Color
deriving DecidableEq, Repr

/-- `Position { file: u8, rank: u8 }`; the constructor rejects values
outside `0..=7`, so stored coordinates are `Fin 8`. -/
structure Position where
  file : Fin 8
  rank : Fin 8
deriving DecidableEq, Repr

/-- `Position::new`: fails (with the source's "Invalid position"
message, the spec's `OutOfRange`) when `file > 7 || rank > 7`. -/
def Position.new (file rank : Nat) : Except String Position :=
  if h : file > 7 ∨ rank > 7 then
    Except.error "Invalid position"
  else
    Except.ok ⟨⟨file, by omega⟩, ⟨rank, by omega⟩⟩

/-- `Position::to_algebraic`: file as `a`..`h`, rank as `1`..`8`. -/
def Position.to_algebraic (p : Position) : String :=
  let file_char := Char.ofNat (97 + p.file.val)
  let rank_char := Char.ofNat (49 + p.rank.val)
  String.mk [file_char, rank_char]

structure Move where
  from_ : Position
  to_ : Position
  promotion : Option PieceType
deriving DecidableEq, Repr

/-- The 8×8 grid `[[Option<Piece>; 8]; 8]`, indexed `[rank][file]`. -/
def Grid := Fin 8 → Fin 8 → Option Piece

/-- Array element assignment `board[rank][file] = p`. -/
def Grid.set (g : Grid) (rank file : Fin 8) (p : Option Piece) : Grid :=
  fun r f => if r = rank ∧ f = file then p else g r f

structure ChessBoard where
  board : Grid
  current_player : Color
  white_king_moved : Bool
  black_king_moved : Bool
  white_rook_a_moved : Bool
  white_rook_h_moved : Bool
  black_rook_a_moved : Bool
  black_rook_h_moved : Bool
  en_passant_target : Option Position

/-- `setup_initial_position`: pawns on ranks 1 and 6, the two back
ranks in file order Rook, Knight, Bishop, Queen, King, Bishop, Knight,
Rook; every other square empty.  The source's sequence of element
assignments is written as one total match on `(rank, file)`. -/
def setup_initial_position : Grid := fun rank file =>
  match rank.val, file.val with
  | 1, _ => some ⟨PieceType.Pawn, Color.White⟩
  | 6, _ => some ⟨PieceType.Pawn, Color.Black⟩
  | 0, 0 => some ⟨PieceType.Rook, Color.White⟩
  | 0, 1 => some ⟨PieceType.Knight, Color.White⟩
  | 0, 2 => some ⟨PieceType.Bishop, Color.White⟩
  | 0, 3 => some ⟨PieceType.Queen, Color.White⟩
  | 0, 4 => some ⟨PieceType.King, Color.White⟩
  | 0, 5 => some ⟨PieceType.Bishop, Color.White⟩
  | 0, 6 => some ⟨PieceType.Knight, Color.White⟩
  | 0, 7 => some ⟨PieceType.Rook, Color.White⟩
  | 7, 0 => some ⟨PieceType.Rook, Color.Black⟩
  | 7, 1 => some ⟨PieceType.Knight, Color.Black⟩
  | 7, 2 => some ⟨PieceType.Bishop, Color.Black⟩
  | 7, 3 => some ⟨PieceType.Queen, Color.Black⟩
  | 7, 4 => some ⟨PieceType.King, Color.Black⟩
  | 7, 5 => some ⟨PieceType.Bishop, Color.Black⟩
  | 7, 6 => some ⟨PieceType.Knight, Color.Black⟩
  | 7, 7 => some ⟨PieceType.Rook, Color.Black⟩
  | _, _ => none

/-- `ChessBoard::new`. -/
def ChessBoard.new : ChessBoard where
  board := setup_initial_position
  current_player := Color.White
  white_king_moved := false
  black_king_moved := false
  white_rook_a_moved := false
  white_rook_h_moved := false
  black_rook_a_moved := false
  black_rook_h_moved := false
  en_passant_target := none

/-- `get_piece`: `self.board[position.rank][position.file]`. -/
def ChessBoard.get_piece (b : ChessBoard) (position : Position) : Option Piece :=
  b.board position.rank position.file

/-- The signed candidate coordinates produced by `as i8 + offset`
arithmetic, as `Int` pairs; `inBounds` is the source's
`x >= 0 && x <= 7` check. -/
def inBounds (file rank : Int) : Prop :=
  0 ≤ file ∧ file ≤ 7 ∧ 0 ≤ rank ∧ rank ≤ 7

instance (file rank : Int) : Decidable (inBounds file rank) := by
  unfold inBounds; infer_instance

/-- Build the `Position` from checked `i8` coordinates
(`file as u8`, `rank as u8`). -/
def mkPos (file rank : Int) (h : inBounds file rank) : Position :=
  ⟨⟨file.toNat, by obtain ⟨h1, h2, _, _⟩ := h; omega⟩,
   ⟨rank.toNat, by obtain ⟨_, _, h3, h4⟩ := h; omega⟩⟩

/-- The `direction` local of `get_pawn_moves`: `+1` for White, `−1`
for Black. -/
def pawnDir (color : Color) : Int := if color = Color.White then 1 else -1

/-- The `start_rank` local of `get_pawn_moves`: 1 for White, 6 for
Black. -/
def startRank (color : Color) : Nat := if color = Color.White then 1 else 6

/-- The forward/double-forward block of `get_pawn_moves`: one square
ahead when empty, and from the starting rank also two squares ahead
when that is empty too. -/
def pawnForwardMoves (b : ChessBoard) (from_ : Position) (color : Color) :
    List Position :=
  let direction : Int := pawnDir color
  let start_rank : Nat := startRank color
  let new_rank : Int := (from_.rank.val : Int) + direction
  if h : inBounds (from_.file.val : Int) new_rank then
    let forward_pos := mkPos (from_.file.val : Int) new_rank h
    if b.get_piece forward_pos = none then
      forward_pos ::
        (if from_.rank.val = start_rank then
          let double_forward_rank := new_rank + direction
          if h2 : inBounds (from_.file.val : Int) double_forward_rank then
            let double_forward_pos :=
              mkPos (from_.file.val : Int) double_forward_rank h2
            if b.get_piece double_forward_pos = none then
              [double_forward_pos]
            else []
          else []
        else [])
    else []
  else []

/-- One iteration of the capture loop of `get_pawn_moves`: the
diagonal square at `file_offset`, kept only when it holds an enemy
piece. -/
def pawnCaptureProbe (b : ChessBoard) (from_ : Position) (color : Color)
    (file_offset : Int) : Option Position :=
  let direction : Int := pawnDir color
  let new_file := (from_.file.val : Int) + file_offset
  let new_rank := (from_.rank.val : Int) + direction
  if h : inBounds new_file new_rank then
    let capture_pos := mkPos new_file new_rank h
    match b.get_piece capture_pos with
    | some target_piece =>
        if target_piece.color ≠ color then some capture_pos else none
    | none => none
  else none

/-- `get_pawn_moves`.  The source pushes into a `&mut Vec`; here the
forward block and the two capture probes are concatenated in the same
order. -/
def get_pawn_moves (b : ChessBoard) (from_ : Position) (color : Color) :
    List Position :=
  pawnForwardMoves b from_ color ++
    ([-1, 1] : List Int).filterMap (pawnCaptureProbe b from_ color)

/-- One ray of `get_sliding_moves`, starting at the already-offset
coordinates.  The source's `while` loop moves by `(file_dir, rank_dir)`
each iteration; for every direction the engine passes, at least one
coordinate changes by ±1 per step, so starting inside `0..=7` the loop
runs at most 7 iterations — fuel 7 is exact. -/
def slidingAux (b : ChessBoard) (color : Color) (file rank file_dir rank_dir : Int) :
    Nat → List Position
  | 0 => []
  | fuel + 1 =>
    if h : inBounds file rank then
      let pos := mkPos file rank h
      match b.get_piece pos with
      | some piece => if piece.color ≠ color then [pos] else []
      | none =>
          pos :: slidingAux b color (file + file_dir) (rank + rank_dir)
            file_dir rank_dir fuel
    else []

/-- `get_sliding_moves`: cast one ray from `from` in direction
`(file_dir, rank_dir)`. -/
def get_sliding_moves (b : ChessBoard) (from_ : Position) (color : Color)
    (file_dir rank_dir : Int) : List Position :=
  slidingAux b color ((from_.file.val : Int) + file_dir)
    ((from_.rank.val : Int) + rank_dir) file_dir rank_dir 7

/-- `get_rook_moves`: the four orthogonal rays, in the source's
direction-table order. -/
def get_rook_moves (b : ChessBoard) (from_ : Position) (color : Color) :
    List Position :=
  get_sliding_moves b from_ color 0 1 ++
  get_sliding_moves b from_ color 0 (-1) ++
  get_sliding_moves b from_ color 1 0 ++
  get_sliding_moves b from_ color (-1) 0

/-- `get_bishop_moves`: the four diagonal rays. -/
def get_bishop_moves (b : ChessBoard) (from_ : Position) (color : Color) :
    List Position :=
  get_sliding_moves b from_ color 1 1 ++
  get_sliding_moves b from_ color 1 (-1) ++
  get_sliding_moves b from_ color (-1) 1 ++
  get_sliding_moves b from_ color (-1) (-1)

/-- `get_queen_moves`: rook rays then bishop rays. -/
def get_queen_moves (b : ChessBoard) (from_ : Position) (color : Color) :
    List Position :=
  get_rook_moves b from_ color ++ get_bishop_moves b from_ color

/-- The fixed knight offset table. -/
def knightOffsets : List (Int × Int) :=
  [(2, 1), (2, -1), (-2, 1), (-2, -1), (1, 2), (1, -2), (-1, 2), (-1, -2)]

/-- The fixed king offset table. -/
def kingOffsets : List (Int × Int) :=
  [(1, 0), (-1, 0), (0, 1), (0, -1), (1, 1), (1, -1), (-1, 1), (-1, -1)]

/-- The shared body of `get_knight_moves` / `get_king_moves`:
offset in bounds, destination empty or enemy. -/
def offsetMoves (b : ChessBoard) (from_ : Position) (color : Color)
    (offsets : List (Int × Int)) : List Position :=
  offsets.filterMap (fun offset =>
    let new_file := (from_.file.val : Int) + offset.1
    let new_rank := (from_.rank.val : Int) + offset.2
    if h : inBounds new_file new_rank then
      let new_pos := mkPos new_file new_rank h
      match b.get_piece new_pos with
      | some piece => if piece.color ≠ color then some new_pos else none
      | none => some new_pos
    else none)

/-- `get_knight_moves`. -/
def get_knight_moves (b : ChessBoard) (from_ : Position) (color : Color) :
    List Position :=
  offsetMoves b from_ color knightOffsets

/-- `get_king_moves`. -/
def get_king_moves (b : ChessBoard) (from_ : Position) (color : Color) :
    List Position :=
  offsetMoves b from_ color kingOffsets

/-- `get_valid_moves`: empty when the origin is empty or holds the
opponent's piece; otherwise dispatch on the piece type. -/
def get_valid_moves (b : ChessBoard) (from_ : Position) : List Position :=
  match b.get_piece from_ with
  | none => []
  | some piece =>
    if piece.color ≠ b.current_player then []
    else
      match piece.piece_type with
      | PieceType.Pawn => get_pawn_moves b from_ piece.color
      | PieceType.Rook => get_rook_moves b from_ piece.color
      | PieceType.Knight => get_knight_moves b from_ piece.color
      | PieceType.Bishop => get_bishop_moves b from_ piece.color
      | PieceType.Queen => get_queen_moves b from_ piece.color
      | PieceType.King => get_king_moves b from_ piece.color

/-- The executor's failure reasons; the source carries them as the
`JsValue` strings given by `MoveError.message`. -/
inductive MoveError where
  | EmptySource
  | WrongTurn
  | IllegalDestination
deriving DecidableEq, Repr

def MoveError.message : MoveError → String
  | MoveError.EmptySource => "No piece at source position"
  | MoveError.WrongTurn => "Not your turn"
  | MoveError.IllegalDestination => "Invalid move"

/-- `make_move(&mut self, ..) -> Result<bool, JsValue>`, embedded as
state passing: the first component is the error (`none` = `Ok(true)`),
the second the board after the call.  Every `return Err` in the source
precedes all mutation, so the error paths return `b` itself. -/
def make_move (b : ChessBoard) (chess_move : Move) :
    Option MoveError × ChessBoard :=
  match b.get_piece chess_move.from_ with
  | none => (some MoveError.EmptySource, b)
  | some from_piece =>
    if from_piece.color ≠ b.current_player then
      (some MoveError.WrongTurn, b)
    else if chess_move.to_ ∉ get_valid_moves b chess_move.from_ then
      (some MoveError.IllegalDestination, b)
    else
      -- board[to] = Some(from_piece); board[from] = None
      let board1 := (b.board.set chess_move.to_.rank chess_move.to_.file
          (some from_piece)).set chess_move.from_.rank chess_move.from_.file none
      -- promotion: only for a pawn arriving at the far rank
      let board2 :=
        match chess_move.promotion with
        | some promotion_type =>
          if from_piece.piece_type = PieceType.Pawn then
            let promotion_rank : Nat :=
              if from_piece.color = Color.White then 7 else 0
            if chess_move.to_.rank.val = promotion_rank then
              board1.set chess_move.to_.rank chess_move.to_.file
                (some ⟨promotion_type, from_piece.color⟩)
            else board1
          else board1
        | none => board1
      (none,
        { board := board2
          current_player :=
            match b.current_player with
            | Color.White => Color.Black
            | Color.Black => Color.White
          white_king_moved :=
            if from_piece.piece_type = PieceType.King ∧
                from_piece.color = Color.White then true
            else b.white_king_moved
          black_king_moved :=
            if from_piece.piece_type = PieceType.King ∧
                from_piece.color = Color.Black then true
            else b.black_king_moved
          white_rook_a_moved :=
            if from_piece.piece_type = PieceType.Rook ∧
                from_piece.color = Color.White ∧
                chess_move.from_.file.val = 0 then true
            else b.white_rook_a_moved
          white_rook_h_moved :=
            if from_piece.piece_type = PieceType.Rook ∧
                from_piece.color = Color.White ∧
                chess_move.from_.file.val = 7 then true
            else b.white_rook_h_moved
          black_rook_a_moved :=
            if from_piece.piece_type = PieceType.Rook ∧
                from_piece.color = Color.Black ∧
                chess_move.from_.file.val = 0 then true
            else b.black_rook_a_moved
          black_rook_h_moved :=
            if from_piece.piece_type = PieceType.Rook ∧
                from_piece.color = Color.Black ∧
                chess_move.from_.file.val = 7 then true
            else b.black_rook_h_moved
          en_passant_target := b.en_passant_target })

/-- FEN letter for a piece: uppercase White, lowercase Black. -/
def pieceChar : PieceType → Color → Char
  | PieceType.Pawn, Color.White => 'P'
  | PieceType.Pawn, Color.Black => 'p'
  | PieceType.Rook, Color.White => 'R'
  | PieceType.Rook, Color.Black => 'r'
  | PieceType.Knight, Color.White => 'N'
  | PieceType.Knight, Color.Black => 'n'
  | PieceType.Bishop, Color.White => 'B'
  | PieceType.Bishop, Color.Black => 'b'
  | PieceType.Queen, Color.White => 'Q'
  | PieceType.Queen, Color.Black => 'q'
  | PieceType.King, Color.White => 'K'
  | PieceType.King, Color.Black => 'k'

/-- One rank of the FEN placement field: files 0..7 left to right,
runs of empty squares emitted as their count. -/
def rankFen (b : ChessBoard) (rank : Fin 8) : String :=
  let step := fun (acc : String × Nat) (file : Fin 8) =>
    match b.board rank file with
    | some piece =>
      let s := if acc.2 > 0 then acc.1 ++ toString acc.2 else acc.1
      (s.push (pieceChar piece.piece_type piece.color), 0)
    | none => (acc.1, acc.2 + 1)
  let result := (List.finRange 8).foldl step ("", 0)
  if result.2 > 0 then result.1 ++ toString result.2 else result.1

/-- The local `castling` string of `to_fen` as a function of the six
movement flags: letters `K Q k q` in that order, each gated on the
king flag and the matching rook flag; `-` when empty. -/
def castlingOf (wkm wrh wra bkm brh bra : Bool) : String :=
  let castling :=
    (if !wkm && !wrh then "K" else "") ++
    (if !wkm && !wra then "Q" else "") ++
    (if !bkm && !brh then "k" else "") ++
    (if !bkm && !bra then "q" else "")
  if castling = "" then "-" else castling

/-- The castling field of `to_fen`, read off the board's flags. -/
def castlingField (b : ChessBoard) : String :=
  castlingOf b.white_king_moved b.white_rook_h_moved b.white_rook_a_moved
    b.black_king_moved b.black_rook_h_moved b.black_rook_a_moved

/-- The en-passant field of `to_fen`. -/
def enPassantField (b : ChessBoard) : String :=
  match b.en_passant_target with
  | some target => target.to_algebraic
  | none => "-"

/-- `to_fen`: placement ranks 7 down to 0 joined by `/`, then active
color, castling, en-passant, and the fixed `0 1` suffix. -/
def to_fen (b : ChessBoard) : String :=
  let placement := String.intercalate "/"
    (((List.finRange 8).reverse).map (rankFen b))
  let active := match b.current_player with
    | Color.White => "w"
    | Color.Black => "b"
  placement ++ " " ++ active ++ " " ++ castlingField b ++ " " ++
    enPassantField b ++ " 0 1"

/-!  Statement-support definitions. -/

/-- Square lookup by signed candidate coordinates: the piece at
`(file, rank)` when in bounds, `none` off the board. -/
def sqPiece (b : ChessBoard) (file rank : Int) : Option Piece :=
  if h : inBounds file rank then b.get_piece (mkPos file rank h) else none

/-- Membership in one sliding ray from `from_` in direction
`(fd, rd)`: `d` lies `k ≥ 1` steps out, every square strictly between
(steps `1..k-1`) is empty, all probed squares are on the board, and
`d` itself is empty or holds an enemy piece. -/
def rayHit (b : ChessBoard) (c : Color) (from_ : Position) (fd rd : Int)
    (d : Position) : Prop :=
  ∃ k : Nat, 1 ≤ k ∧ k ≤ 7 ∧
    (∀ j : Nat, 1 ≤ j → j ≤ k →
      inBounds ((from_.file.val : Int) + j * fd) ((from_.rank.val : Int) + j * rd)) ∧
    (∀ j : Nat, 1 ≤ j → j < k →
      sqPiece b ((from_.file.val : Int) + j * fd) ((from_.rank.val : Int) + j * rd)
        = none) ∧
    (d.file.val : Int) = (from_.file.val : Int) + k * fd ∧
    (d.rank.val : Int) = (from_.rank.val : Int) + k * rd ∧
    (b.get_piece d = none ∨ ∃ q, b.get_piece d = some q ∧ q.color ≠ c)

/-- Board-independent upper bound on a ray: how many successive probe
squares stay inside the board. -/
def stepsInRange (file rank file_dir rank_dir : Int) : Nat → Nat
  | 0 => 0
  | fuel + 1 =>
    if inBounds file rank then
      stepsInRange (file + file_dir) (rank + rank_dir) file_dir rank_dir fuel + 1
    else 0

/-- Boards reachable from the initial board by a sequence of
successful `make_move` calls. -/
inductive Reachable : ChessBoard → Prop where
  | init : Reachable ChessBoard.new
  | step {b : ChessBoard} {m : Move} {b' : ChessBoard} :
      Reachable b → make_move b m = (none, b') → Reachable b'

/-- A board with the given grid, White to move, all movement flags
clear, no en-passant target: the test-harness boards below. -/
def boardOf (g : Grid) : ChessBoard where
  board := g
  current_player := Color.White
  white_king_moved := false
  black_king_moved := false
  white_rook_a_moved := false
  white_rook_h_moved := false
  black_rook_a_moved := false
  black_rook_h_moved := false
  en_passant_target := none

/-- Only a white rook on a4 (file 0, rank 3). -/
def rookA4Board : ChessBoard :=
  boardOf (fun r f =>
    if r.val = 3 ∧ f.val = 0 then some ⟨PieceType.Rook, Color.White⟩ else none)

/-- Only a white rook on a1 (file 0, rank 0). -/
def cornerRookBoard : ChessBoard :=
  boardOf (fun r f =>
    if r.val = 0 ∧ f.val = 0 then some ⟨PieceType.Rook, Color.White⟩ else none)

/-- A white rook on a1 and a black pawn on a6 (file 0, rank 5). -/
def enemyRayBoard : ChessBoard :=
  boardOf (fun r f =>
    if r.val = 0 ∧ f.val = 0 then some ⟨PieceType.Rook, Color.White⟩
    else if r.val = 5 ∧ f.val = 0 then some ⟨PieceType.Pawn, Color.Black⟩
    else none)

/-- A white rook on a1 and a white pawn on a6 (file 0, rank 5). -/
def friendlyRayBoard : ChessBoard :=
  boardOf (fun r f =>
    if r.val = 0 ∧ f.val = 0 then some ⟨PieceType.Rook, Color.White⟩
    else if r.val = 5 ∧ f.val = 0 then some ⟨PieceType.Pawn, Color.White⟩
    else none)

/-- Only a white pawn on a7 (file 0, rank 6). -/
def pawnA7Board : ChessBoard :=
  boardOf (fun r f =>
    if r.val = 6 ∧ f.val = 0 then some ⟨PieceType.Pawn, Color.White⟩ else none)

/-- Only a white queen on d4 (file 3, rank 3). -/
def queenD4Board : ChessBoard :=
  boardOf (fun r f =>
    if r.val = 3 ∧ f.val = 3 then some ⟨PieceType.Queen, Color.White⟩ else none)

/-!  Helper lemmas. -/

theorem mkPos_file (x y : Int) (h : inBounds x y) :
    ((mkPos x y h).file.val : Int) = x := by
  obtain ⟨h1, h2, h3, h4⟩ := h
  simp only [mkPos]
  omega

theorem mkPos_rank (x y : Int) (h : inBounds x y) :
    ((mkPos x y h).rank.val : Int) = y := by
  obtain ⟨h1, h2, h3, h4⟩ := h
  simp only [mkPos]
  omega

theorem eq_mkPos_iff (d : Position) (x y : Int) (h : inBounds x y) :
    d = mkPos x y h ↔ ((d.file.val : Int) = x ∧ (d.rank.val : Int) = y) := by
  constructor
  · rintro rfl
    exact ⟨mkPos_file x y h, mkPos_rank x y h⟩
  · rintro ⟨h1, h2⟩
    obtain ⟨hx1, hx2, hy1, hy2⟩ := h
    cases d with
    | mk df dr =>
      simp only [mkPos, Position.mk.injEq]
      constructor <;> (apply Fin.ext) <;> simp at h1 h2 ⊢ <;> omega

theorem position_inBounds (d : Position) :
    inBounds (d.file.val : Int) (d.rank.val : Int) := by
  refine ⟨by omega, ?_, by omega, ?_⟩ <;>
    [have := d.file.isLt; have := d.rank.isLt] <;> omega

theorem sqPiece_pos (b : ChessBoard) (x y : Int) (h : inBounds x y) :
    sqPiece b x y = b.get_piece (mkPos x y h) := by
  simp only [sqPiece, dif_pos h]

theorem sqPiece_coe (b : ChessBoard) (d : Position) :
    sqPiece b (d.file.val : Int) (d.rank.val : Int) = b.get_piece d := by
  rw [sqPiece_pos b _ _ (position_inBounds d),
    ((eq_mkPos_iff d _ _ (position_inBounds d)).mpr ⟨rfl, rfl⟩).symm]

/-!  C8: coordinate construction. -/

/-- C8: for all `file, rank` in `0..255`, `Position::new` succeeds and
returns exactly those field values iff `file ≤ 7 ∧ rank ≤ 7`, and
fails (the spec's `OutOfRange`) otherwise. -/
theorem position_new_spec (file rank : Nat) (hf : file ≤ 255) (hr : rank ≤ 255) :
    ((∃ p : Position, Position.new file rank = Except.ok p ∧
        p.file.val = file ∧ p.rank.val = rank) ↔ (file ≤ 7 ∧ rank ≤ 7)) ∧
    (Position.new file rank = Except.error "Invalid position" ↔
      ¬(file ≤ 7 ∧ rank ≤ 7)) := by
  unfold Position.new
  by_cases h : file > 7 ∨ rank > 7
  · rw [dif_pos h]
    refine ⟨⟨?_, ?_⟩, ⟨?_, ?_⟩⟩
    · rintro ⟨p, hp, -, -⟩
      exact Except.noConfusion hp
    · intro hle
      omega
    · intro
      omega
    · intro
      rfl
  · rw [dif_neg h]
    refine ⟨⟨?_, ?_⟩, ⟨?_, ?_⟩⟩
    · intro
      omega
    · intro
      exact ⟨_, rfl, rfl, rfl⟩
    · intro hp
      exact Except.noConfusion hp
    · intro hc
      exact absurd (by omega) hc

theorem position_new_spec_witness :
    ∃ p : Position, Position.new 3 5 = Except.ok p ∧
      p.file.val = 3 ∧ p.rank.val = 5 :=
  ((position_new_spec 3 5 (by decide) (by decide)).1).mpr (by decide)

/-!  C5: initial-board FEN. -/

/-- C5: for a freshly constructed board, `to_fen` returns exactly the
standard initial-position FEN string. -/
theorem initial_board_fen :
    to_fen ChessBoard.new =
      "rnbqkbnr/pppppppp/8/8/8/8/PPPPPPPP/RNBQKBNR w KQkq - 0 1" := by
  decide

/-!  C7: the en-passant target is never written. -/

theorem make_move_en_passant (b : ChessBoard) (m : Move) :
    ((make_move b m).2).en_passant_target = b.en_passant_target := by
  cases hp : b.get_piece m.from_ with
  | none => simp [make_move, hp]
  | some p =>
    by_cases h1 : p.color ≠ b.current_player
    · simp [make_move, hp, h1]
    · by_cases h2 : m.to_ ∉ get_valid_moves b m.from_
      · simp [make_move, hp, h1, h2]
      · simp [make_move, hp, h1, h2]

/-- C7: every board reachable from `ChessBoard.new` by successful
`make_move` calls has an empty `en_passant_target`, so its FEN
en-passant field is `-`. -/
theorem reachable_en_passant_none (b : ChessBoard) (h : Reachable b) :
    b.en_passant_target = none ∧ enPassantField b = "-" := by
  have hnone : b.en_passant_target = none := by
    induction h with
    | init => rfl
    | step hr hm ih =>
      rename_i b0 m b'
      have := make_move_en_passant b0 m
      rw [hm] at this
      rw [this]
      exact ih
  refine ⟨hnone, ?_⟩
  unfold enPassantField
  rw [hnone]

theorem reachable_en_passant_none_witness :
    ChessBoard.new.en_passant_target = none ∧
      enPassantField ChessBoard.new = "-" :=
  reachable_en_passant_none ChessBoard.new Reachable.init

/-!  C9: move-list size bound. -/

theorem slidingAux_length_le (b : ChessBoard) (c : Color) (fd rd : Int) :
    ∀ (fuel : Nat) (f r : Int),
      (slidingAux b c f r fd rd fuel).length ≤ stepsInRange f r fd rd fuel := by
  intro fuel
  induction fuel with
  | zero =>
    intro f r
    simp [slidingAux, stepsInRange]
  | succ n ih =>
    intro f r
    by_cases hin : inBounds f r
    · rw [slidingAux, stepsInRange, dif_pos hin, if_pos hin]
      cases hp : b.get_piece (mkPos f r hin) with
      | none =>
        simp only [hp, List.length_cons]
        exact Nat.succ_le_succ (ih (f + fd) (r + rd))
      | some piece =>
        simp only [hp]
        by_cases he : piece.color ≠ c
        · rw [if_pos he]
          simp
        · rw [if_neg he]
          simp
    · rw [slidingAux, stepsInRange, dif_neg hin, if_neg hin]
      simp

theorem rookSteps_le (f r : Fin 8) :
    stepsInRange ((f.val : Int) + 0) ((r.val : Int) + 1) 0 1 7 +
    stepsInRange ((f.val : Int) + 0) ((r.val : Int) + (-1)) 0 (-1) 7 +
    stepsInRange ((f.val : Int) + 1) ((r.val : Int) + 0) 1 0 7 +
    stepsInRange ((f.val : Int) + (-1)) ((r.val : Int) + 0) (-1) 0 7 ≤ 14 := by
  revert r
  revert f
  decide

theorem bishopSteps_le (f r : Fin 8) :
    stepsInRange ((f.val : Int) + 1) ((r.val : Int) + 1) 1 1 7 +
    stepsInRange ((f.val : Int) + 1) ((r.val : Int) + (-1)) 1 (-1) 7 +
    stepsInRange ((f.val : Int) + (-1)) ((r.val : Int) + 1) (-1) 1 7 +
    stepsInRange ((f.val : Int) + (-1)) ((r.val : Int) + (-1)) (-1) (-1) 7 ≤ 13 := by
  revert r
  revert f
  decide

theorem get_rook_moves_length_le (b : ChessBoard) (from_ : Position) (c : Color) :
    (get_rook_moves b from_ c).length ≤ 14 := by
  unfold get_rook_moves get_sliding_moves
  simp only [List.length_append]
  have h1 := slidingAux_length_le b c 0 1 7
    ((from_.file.val : Int) + 0) ((from_.rank.val : Int) + 1)
  have h2 := slidingAux_length_le b c 0 (-1) 7
    ((from_.file.val : Int) + 0) ((from_.rank.val : Int) + (-1))
  have h3 := slidingAux_length_le b c 1 0 7
    ((from_.file.val : Int) + 1) ((from_.rank.val : Int) + 0)
  have h4 := slidingAux_length_le b c (-1) 0 7
    ((from_.file.val : Int) + (-1)) ((from_.rank.val : Int) + 0)
  have hs := rookSteps_le from_.file from_.rank
  omega

theorem get_bishop_moves_length_le (b : ChessBoard) (from_ : Position) (c : Color) :
    (get_bishop_moves b from_ c).length ≤ 13 := by
  unfold get_bishop_moves get_sliding_moves
  simp only [List.length_append]
  have h1 := slidingAux_length_le b c 1 1 7
    ((from_.file.val : Int) + 1) ((from_.rank.val : Int) + 1)
  have h2 := slidingAux_length_le b c 1 (-1) 7
    ((from_.file.val : Int) + 1) ((from_.rank.val : Int) + (-1))
  have h3 := slidingAux_length_le b c (-1) 1 7
    ((from_.file.val : Int) + (-1)) ((from_.rank.val : Int) + 1)
  have h4 := slidingAux_length_le b c (-1) (-1) 7
    ((from_.file.val : Int) + (-1)) ((from_.rank.val : Int) + (-1))
  have hs := bishopSteps_le from_.file from_.rank
  omega

theorem pawnForwardMoves_length_le (b : ChessBoard) (from_ : Position)
    (c : Color) :
    (pawnForwardMoves b from_ c).length ≤ 2 := by
  simp only [pawnForwardMoves]
  split
  · rename_i h1
    by_cases h2 : b.get_piece (mkPos ((from_.file.val : Int))
        ((from_.rank.val : Int) + pawnDir c) h1) = none
    · rw [if_pos h2, List.length_cons]
      refine Nat.succ_le_succ ?_
      by_cases h3 : from_.rank.val = startRank c
      · rw [if_pos h3]
        split
        · rename_i h4
          by_cases h5 : b.get_piece (mkPos ((from_.file.val : Int))
              ((from_.rank.val : Int) + pawnDir c + pawnDir c) h4) = none
          · rw [if_pos h5]
            simp
          · rw [if_neg h5]
            simp
        · simp
      · rw [if_neg h3]
        simp
    · rw [if_neg h2]
      simp
  · simp

theorem get_pawn_moves_length_le (b : ChessBoard) (from_ : Position) (c : Color) :
    (get_pawn_moves b from_ c).length ≤ 4 := by
  unfold get_pawn_moves
  rw [List.length_append]
  have hcap : (([-1, 1] : List Int).filterMap (pawnCaptureProbe b from_ c)).length ≤ 2 :=
    le_trans (List.length_filterMap_le _ _) (by decide)
  have hfwd := pawnForwardMoves_length_le b from_ c
  omega

theorem offsetMoves_length_le (b : ChessBoard) (from_ : Position) (c : Color)
    (offsets : List (Int × Int)) :
    (offsetMoves b from_ c offsets).length ≤ offsets.length :=
  List.length_filterMap_le _ _

/-- C9: for every board and origin, `get_valid_moves` returns at most
27 destinations, and the bound is attained by a queen on d4 of an
otherwise empty board. -/
theorem get_valid_moves_length_le :
    (∀ (b : ChessBoard) (from_ : Position),
      (get_valid_moves b from_).length ≤ 27) ∧
    (get_valid_moves queenD4Board ⟨3, 3⟩).length = 27 := by
  constructor
  · intro b from_
    cases hp : b.get_piece from_ with
    | none => simp [get_valid_moves, hp]
    | some p =>
      obtain ⟨pt, pc⟩ := p
      by_cases hc : pc ≠ b.current_player
      · simp [get_valid_moves, hp, hc]
      · cases pt with
        | Pawn =>
          simp only [get_valid_moves, hp, hc, if_neg, ite_false]
          exact le_trans (get_pawn_moves_length_le b from_ pc) (by omega)
        | Rook =>
          simp only [get_valid_moves, hp, hc, if_neg, ite_false]
          exact le_trans (get_rook_moves_length_le b from_ pc) (by omega)
        | Knight =>
          simp only [get_valid_moves, hp, hc, if_neg, ite_false]
          exact le_trans (offsetMoves_length_le b from_ pc knightOffsets)
            (by decide)
        | Bishop =>
          simp only [get_valid_moves, hp, hc, if_neg, ite_false]
          exact le_trans (get_bishop_moves_length_le b from_ pc) (by omega)
        | Queen =>
          simp only [get_valid_moves, hp, hc, if_neg, ite_false]
          unfold get_queen_moves
          rw [List.length_append]
          have h1 := get_rook_moves_length_le b from_ pc
          have h2 := get_bishop_moves_length_le b from_ pc
          omega
        | King =>
          simp only [get_valid_moves, hp, hc, if_neg, ite_false]
          exact le_trans (offsetMoves_length_le b from_ pc kingOffsets)
            (by decide)
  · decide

/-!  C3: pawn move generation. -/

theorem pawnDir_cases (c : Color) : pawnDir c = 1 ∨ pawnDir c = -1 := by
  cases c <;> simp [pawnDir]

theorem pawnForwardMoves_not_start (b : ChessBoard) (from_ : Position)
    (c : Color) (hns : from_.rank.val ≠ startRank c) :
    (pawnForwardMoves b from_ c).length ≤ 1 := by
  simp only [pawnForwardMoves]
  split
  · rename_i h1
    by_cases h2 : b.get_piece (mkPos ((from_.file.val : Int))
        ((from_.rank.val : Int) + pawnDir c) h1) = none
    · rw [if_pos h2]
      simp
    · rw [if_neg h2]
      simp
  · simp

theorem mem_pawnForwardMoves (b : ChessBoard) (from_ : Position) (c : Color)
    (d : Position) :
    d ∈ pawnForwardMoves b from_ c ↔
      (((d.file.val : Int) = (from_.file.val : Int) ∧
        (d.rank.val : Int) = (from_.rank.val : Int) + pawnDir c ∧
        b.get_piece d = none) ∨
      ((d.file.val : Int) = (from_.file.val : Int) ∧
        (d.rank.val : Int) = (from_.rank.val : Int) + 2 * pawnDir c ∧
        from_.rank.val = startRank c ∧
        sqPiece b (from_.file.val : Int)
          ((from_.rank.val : Int) + pawnDir c) = none ∧
        b.get_piece d = none)) := by
  have hdr8 := d.rank.isLt
  have hdf8 := d.file.isLt
  have hfr8 := from_.rank.isLt
  have hff8 := from_.file.isLt
  simp only [pawnForwardMoves]
  split
  · rename_i h1
    by_cases h2 : b.get_piece (mkPos ((from_.file.val : Int))
        ((from_.rank.val : Int) + pawnDir c) h1) = none
    · rw [if_pos h2]
      by_cases h3 : from_.rank.val = startRank c
      · rw [if_pos h3]
        split
        · rename_i h4
          by_cases h5 : b.get_piece (mkPos ((from_.file.val : Int))
              ((from_.rank.val : Int) + pawnDir c + pawnDir c) h4) = none
          · rw [if_pos h5]
            simp only [List.mem_cons, List.mem_singleton, List.not_mem_nil,
              or_false]
            constructor
            · rintro (hd | hd)
              · rw [eq_mkPos_iff d _ _ h1] at hd
                refine Or.inl ⟨hd.1, hd.2, ?_⟩
                rw [(eq_mkPos_iff d _ _ h1).mpr hd]
                exact h2
              · rw [eq_mkPos_iff d _ _ h4] at hd
                refine Or.inr ⟨hd.1, by omega, h3, ?_, ?_⟩
                · rw [sqPiece_pos b _ _ h1]
                  exact h2
                · rw [(eq_mkPos_iff d _ _ h4).mpr hd]
                  exact h5
            · rintro (⟨hf, hr, -⟩ | ⟨hf, hr, -, -, -⟩)
              · exact Or.inl ((eq_mkPos_iff d _ _ h1).mpr ⟨hf, hr⟩)
              · exact Or.inr ((eq_mkPos_iff d _ _ h4).mpr ⟨hf, by omega⟩)
          · rw [if_neg h5]
            simp only [List.mem_singleton]
            constructor
            · intro hd
              rw [eq_mkPos_iff d _ _ h1] at hd
              refine Or.inl ⟨hd.1, hd.2, ?_⟩
              rw [(eq_mkPos_iff d _ _ h1).mpr hd]
              exact h2
            · rintro (⟨hf, hr, -⟩ | ⟨hf, hr, -, -, hnone⟩)
              · exact (eq_mkPos_iff d _ _ h1).mpr ⟨hf, hr⟩
              · exfalso
                have hd : d = mkPos _ _ h4 :=
                  (eq_mkPos_iff d _ _ h4).mpr ⟨hf, by omega⟩
                rw [hd] at hnone
                exact h5 hnone
        · rename_i h4
          simp only [List.mem_singleton]
          constructor
          · intro hd
            rw [eq_mkPos_iff d _ _ h1] at hd
            refine Or.inl ⟨hd.1, hd.2, ?_⟩
            rw [(eq_mkPos_iff d _ _ h1).mpr hd]
            exact h2
          · rintro (⟨hf, hr, -⟩ | ⟨hf, hr, -, -, -⟩)
            · exact (eq_mkPos_iff d _ _ h1).mpr ⟨hf, hr⟩
            · exact absurd ⟨by omega, by omega, by omega, by omega⟩ h4
      · rw [if_neg h3]
        simp only [List.mem_singleton]
        constructor
        · intro hd
          rw [eq_mkPos_iff d _ _ h1] at hd
          refine Or.inl ⟨hd.1, hd.2, ?_⟩
          rw [(eq_mkPos_iff d _ _ h1).mpr hd]
          exact h2
        · rintro (⟨hf, hr, -⟩ | ⟨-, -, hstart, -, -⟩)
          · exact (eq_mkPos_iff d _ _ h1).mpr ⟨hf, hr⟩
          · exact absurd hstart h3
    · rw [if_neg h2]
      simp only [List.not_mem_nil, false_iff]
      rintro (⟨hf, hr, hnone⟩ | ⟨hf, hr, -, hsq, -⟩)
      · apply h2
        rw [← (eq_mkPos_iff d _ _ h1).mpr ⟨hf, hr⟩]
        exact hnone
      · apply h2
        rw [← sqPiece_pos b _ _ h1]
        exact hsq
  · rename_i h1
    have h1' : ¬((0 : Int) ≤ (from_.file.val : Int) ∧
        (from_.file.val : Int) ≤ 7 ∧
        0 ≤ (from_.rank.val : Int) + pawnDir c ∧
        (from_.rank.val : Int) + pawnDir c ≤ 7) := h1
    simp only [List.not_mem_nil, false_iff]
    rintro (⟨hf, hr, -⟩ | ⟨hf, hr, -, -, -⟩)
    · exact h1' ⟨by omega, by omega, by omega, by omega⟩
    · rcases pawnDir_cases c with hd | hd <;>
        exact h1' ⟨by omega, by omega, by omega, by omega⟩

theorem mem_pawnCaptures (b : ChessBoard) (from_ : Position) (c : Color)
    (d : Position) :
    d ∈ ([-1, 1] : List Int).filterMap (pawnCaptureProbe b from_ c) ↔
      ∃ s : Int, (s = -1 ∨ s = 1) ∧
        (d.file.val : Int) = (from_.file.val : Int) + s ∧
        (d.rank.val : Int) = (from_.rank.val : Int) + pawnDir c ∧
        ∃ q : Piece, b.get_piece d = some q ∧ q.color ≠ c := by
  rw [List.mem_filterMap]
  constructor
  · rintro ⟨s, hs, hfs⟩
    simp only [List.mem_cons, List.mem_singleton, List.not_mem_nil,
      or_false] at hs
    simp only [pawnCaptureProbe] at hfs
    by_cases hin : inBounds ((from_.file.val : Int) + s)
        ((from_.rank.val : Int) + pawnDir c)
    · rw [dif_pos hin] at hfs
      cases hgp : b.get_piece (mkPos ((from_.file.val : Int) + s)
          ((from_.rank.val : Int) + pawnDir c) hin) with
      | none =>
        simp only [hgp] at hfs
        exact Option.noConfusion hfs
      | some tp =>
        simp only [hgp] at hfs
        by_cases htc : tp.color ≠ c
        · rw [if_pos htc] at hfs
          have hd : mkPos ((from_.file.val : Int) + s)
              ((from_.rank.val : Int) + pawnDir c) hin = d :=
            Option.some_inj.mp hfs
          refine ⟨s, hs, ?_, ?_, tp, ?_, htc⟩
          · rw [← hd]
            exact mkPos_file _ _ hin
          · rw [← hd]
            exact mkPos_rank _ _ hin
          · rw [← hd]
            exact hgp
        · rw [if_neg htc] at hfs
          exact Option.noConfusion hfs
    · rw [dif_neg hin] at hfs
      exact Option.noConfusion hfs
  · rintro ⟨s, hs, hf, hr, q, hq, hqc⟩
    refine ⟨s, ?_, ?_⟩
    · simp only [List.mem_cons, List.mem_singleton, List.not_mem_nil, or_false]
      exact hs
    · have hin : inBounds ((from_.file.val : Int) + s)
          ((from_.rank.val : Int) + pawnDir c) := by
        rw [← hf, ← hr]
        exact position_inBounds d
      simp only [pawnCaptureProbe]
      rw [dif_pos hin]
      have hd : mkPos ((from_.file.val : Int) + s)
          ((from_.rank.val : Int) + pawnDir c) hin = d :=
        ((eq_mkPos_iff d _ _ hin).mpr ⟨hf, hr⟩).symm
      rw [hd]
      simp only [hq]
      rw [if_pos hqc]

/-- C3: for a pawn of the side to move, `get_valid_moves` contains the
one-square-forward square iff it is on the board and empty; the
two-square square iff the pawn stands on its side's starting rank and
both forward squares are empty; a diagonal square (file ±1, one rank
forward) iff it holds an enemy piece; and nothing else — so a pawn off
its starting rank has at most one same-file destination. -/
theorem pawn_moves_spec (b : ChessBoard) (from_ : Position) (c : Color)
    (hp : b.get_piece from_ = some ⟨PieceType.Pawn, c⟩)
    (hc : c = b.current_player) :
    (∀ d : Position, d ∈ get_valid_moves b from_ ↔
      (((d.file.val : Int) = (from_.file.val : Int) ∧
        (d.rank.val : Int) = (from_.rank.val : Int) + pawnDir c ∧
        b.get_piece d = none) ∨
      ((d.file.val : Int) = (from_.file.val : Int) ∧
        (d.rank.val : Int) = (from_.rank.val : Int) + 2 * pawnDir c ∧
        from_.rank.val = startRank c ∧
        sqPiece b (from_.file.val : Int)
          ((from_.rank.val : Int) + pawnDir c) = none ∧
        b.get_piece d = none) ∨
      (∃ s : Int, (s = -1 ∨ s = 1) ∧
        (d.file.val : Int) = (from_.file.val : Int) + s ∧
        (d.rank.val : Int) = (from_.rank.val : Int) + pawnDir c ∧
        ∃ q : Piece, b.get_piece d = some q ∧ q.color ≠ c))) ∧
    (from_.rank.val ≠ startRank c →
      ((get_valid_moves b from_).filter
        (fun d => d.file = from_.file)).length ≤ 1) := by
  have hmoves : get_valid_moves b from_ = get_pawn_moves b from_ c := by
    simp [get_valid_moves, hp, ← hc]
  constructor
  · intro d
    rw [hmoves]
    unfold get_pawn_moves
    rw [List.mem_append, mem_pawnForwardMoves, mem_pawnCaptures]
    exact or_assoc
  · intro hns
    rw [hmoves]
    unfold get_pawn_moves
    rw [List.filter_append, List.length_append]
    have hcapnil : ((([-1, 1] : List Int).filterMap
        (pawnCaptureProbe b from_ c)).filter
          (fun d => d.file = from_.file)).length = 0 := by
      rw [List.length_eq_zero, List.filter_eq_nil_iff]
      intro a ha
      rw [mem_pawnCaptures] at ha
      obtain ⟨s, hs, hf, -, -⟩ := ha
      simp only [decide_eq_true_eq]
      intro heq
      rw [heq] at hf
      rcases hs with rfl | rfl <;> omega
    rw [hcapnil]
    have hlen := List.length_filter_le
      (fun d => decide (d.file = from_.file)) (pawnForwardMoves b from_ c)
    have hfwd := pawnForwardMoves_not_start b from_ c hns
    omega

theorem pawn_moves_spec_witness :
    (⟨4, 3⟩ : Position) ∈ get_valid_moves ChessBoard.new ⟨4, 1⟩ :=
  ((pawn_moves_spec ChessBoard.new ⟨4, 1⟩ Color.White (by decide) rfl).1
    ⟨4, 3⟩).mpr (Or.inr (Or.inl ⟨by decide, by decide, by decide,
      by decide, by decide⟩))

/-!  C4: rook move generation (ray casting). -/

theorem stepShift (x dx : Int) (j : Nat) :
    x + ((j + 1 : Nat) : Int) * dx = (x + dx) + (j : Int) * dx := by
  push_cast
  ring

theorem mem_slidingAux (b : ChessBoard) (c : Color) (fd rd : Int) (d : Position) :
    ∀ (fuel : Nat) (f r : Int),
      (d ∈ slidingAux b c f r fd rd fuel ↔
        ∃ k : Nat, k < fuel ∧
          (∀ j : Nat, j ≤ k → inBounds (f + j * fd) (r + j * rd)) ∧
          (∀ j : Nat, j < k → sqPiece b (f + j * fd) (r + j * rd) = none) ∧
          (d.file.val : Int) = f + k * fd ∧
          (d.rank.val : Int) = r + k * rd ∧
          (b.get_piece d = none ∨
            ∃ q, b.get_piece d = some q ∧ q.color ≠ c)) := by
  intro fuel
  induction fuel with
  | zero =>
    intro f r
    simp [slidingAux]
  | succ n ih =>
    intro f r
    by_cases hin : inBounds f r
    · rw [slidingAux, dif_pos hin]
      cases hgp : b.get_piece (mkPos f r hin) with
      | some piece =>
        simp only [hgp]
        by_cases he : piece.color ≠ c
        · rw [if_pos he]
          simp only [List.mem_singleton]
          constructor
          · intro hd
            refine ⟨0, Nat.succ_pos n, ?_, ?_, ?_, ?_,
              Or.inr ⟨piece, by rw [hd]; exact hgp, he⟩⟩
            · intro j hj
              obtain rfl : j = 0 := Nat.le_zero.mp hj
              simpa using hin
            · intro j hj
              exact absurd hj (Nat.not_lt_zero j)
            · rw [hd, mkPos_file f r hin]
              simp
            · rw [hd, mkPos_rank f r hin]
              simp
          · rintro ⟨k, hk, hinb, hemb, hf, hr, htar⟩
            cases k with
            | zero =>
              apply (eq_mkPos_iff d f r hin).mpr
              simp only [Nat.cast_zero, zero_mul, add_zero] at hf hr
              exact ⟨hf, hr⟩
            | succ k' =>
              exfalso
              have h0 := hemb 0 (Nat.succ_pos k')
              simp only [Nat.cast_zero, zero_mul, add_zero] at h0
              rw [sqPiece_pos b f r hin, hgp] at h0
              exact Option.noConfusion h0
        · rw [if_neg he]
          simp only [List.not_mem_nil, false_iff]
          rintro ⟨k, hk, hinb, hemb, hf, hr, htar⟩
          cases k with
          | zero =>
            simp only [Nat.cast_zero, zero_mul, add_zero] at hf hr
            have hd : d = mkPos f r hin := (eq_mkPos_iff d f r hin).mpr ⟨hf, hr⟩
            rcases htar with hnone | ⟨q, hq, hqc⟩
            · rw [hd, hgp] at hnone
              exact Option.noConfusion hnone
            · rw [hd, hgp] at hq
              obtain rfl : piece = q := Option.some_inj.mp hq
              exact he hqc
          | succ k' =>
            have h0 := hemb 0 (Nat.succ_pos k')
            simp only [Nat.cast_zero, zero_mul, add_zero] at h0
            rw [sqPiece_pos b f r hin, hgp] at h0
            exact Option.noConfusion h0
      | none =>
        simp only [hgp, List.mem_cons]
        rw [ih (f + fd) (r + rd)]
        constructor
        · rintro (hd | ⟨k, hk, hinb, hemb, hf, hr, htar⟩)
          · refine ⟨0, Nat.succ_pos n, ?_, ?_, ?_, ?_,
              Or.inl (by rw [hd]; exact hgp)⟩
            · intro j hj
              obtain rfl : j = 0 := Nat.le_zero.mp hj
              simpa using hin
            · intro j hj
              exact absurd hj (Nat.not_lt_zero j)
            · rw [hd, mkPos_file f r hin]
              simp
            · rw [hd, mkPos_rank f r hin]
              simp
          · refine ⟨k + 1, by omega, ?_, ?_, ?_, ?_, htar⟩
            · intro j hj
              cases j with
              | zero => simpa using hin
              | succ j' =>
                rw [stepShift f fd j', stepShift r rd j']
                exact hinb j' (by omega)
            · intro j hj
              cases j with
              | zero =>
                simp only [Nat.cast_zero, zero_mul, add_zero]
                rw [sqPiece_pos b f r hin]
                exact hgp
              | succ j' =>
                rw [stepShift f fd j', stepShift r rd j']
                exact hemb j' (by omega)
            · rw [stepShift f fd k]
              exact hf
            · rw [stepShift r rd k]
              exact hr
        · rintro ⟨k, hk, hinb, hemb, hf, hr, htar⟩
          cases k with
          | zero =>
            left
            simp only [Nat.cast_zero, zero_mul, add_zero] at hf hr
            exact (eq_mkPos_iff d f r hin).mpr ⟨hf, hr⟩
          | succ k' =>
            right
            refine ⟨k', by omega, ?_, ?_, ?_, ?_, htar⟩
            · intro j hj
              have h := hinb (j + 1) (by omega)
              rw [stepShift f fd j, stepShift r rd j] at h
              exact h
            · intro j hj
              have h := hemb (j + 1) (by omega)
              rw [stepShift f fd j, stepShift r rd j] at h
              exact h
            · rw [stepShift f fd k'] at hf
              exact hf
            · rw [stepShift r rd k'] at hr
              exact hr
    · rw [slidingAux, dif_neg hin]
      simp only [List.not_mem_nil, false_iff]
      rintro ⟨k, hk, hinb, hemb, -, -, -⟩
      exact hin (by simpa using hinb 0 (Nat.zero_le k))

theorem mem_get_sliding_moves (b : ChessBoard) (c : Color) (from_ : Position)
    (fd rd : Int) (d : Position) :
    d ∈ get_sliding_moves b from_ c fd rd ↔ rayHit b c from_ fd rd d := by
  unfold get_sliding_moves rayHit
  rw [mem_slidingAux]
  constructor
  · rintro ⟨k, hk, hinb, hemb, hf, hr, htar⟩
    refine ⟨k + 1, by omega, by omega, ?_, ?_, ?_, ?_, htar⟩
    · intro j hj1 hj2
      obtain ⟨j', rfl⟩ : ∃ j', j = j' + 1 := ⟨j - 1, by omega⟩
      rw [stepShift ((from_.file.val : Int)) fd j',
        stepShift ((from_.rank.val : Int)) rd j']
      exact hinb j' (by omega)
    · intro j hj1 hj2
      obtain ⟨j', rfl⟩ : ∃ j', j = j' + 1 := ⟨j - 1, by omega⟩
      rw [stepShift ((from_.file.val : Int)) fd j',
        stepShift ((from_.rank.val : Int)) rd j']
      exact hemb j' (by omega)
    · rw [stepShift ((from_.file.val : Int)) fd k]
      exact hf
    · rw [stepShift ((from_.rank.val : Int)) rd k]
      exact hr
  · rintro ⟨k, hk1, hk7, hinb, hemb, hf, hr, htar⟩
    obtain ⟨k', rfl⟩ : ∃ k', k = k' + 1 := ⟨k - 1, by omega⟩
    refine ⟨k', by omega, ?_, ?_, ?_, ?_, htar⟩
    · intro j hj
      have h := hinb (j + 1) (by omega) (by omega)
      rw [stepShift ((from_.file.val : Int)) fd j,
        stepShift ((from_.rank.val : Int)) rd j] at h
      exact h
    · intro j hj
      have h := hemb (j + 1) (by omega) (by omega)
      rw [stepShift ((from_.file.val : Int)) fd j,
        stepShift ((from_.rank.val : Int)) rd j] at h
      exact h
    · rw [stepShift ((from_.file.val : Int)) fd k'] at hf
      exact hf
    · rw [stepShift ((from_.rank.val : Int)) rd k'] at hr
      exact hr

/-- C4: for a rook of the side to move, `get_valid_moves` is exactly
the union of the four orthogonal rays, each ray running from the
origin to the board edge or the first occupied square, included iff
empty or enemy; in particular a corner rook on an otherwise empty
board has exactly 14 destinations, an enemy piece on a ray truncates
the ray to end at (and include) the enemy square, and a friendly piece
truncates it to end just before that square. -/
theorem rook_moves_spec (b : ChessBoard) (from_ : Position) (c : Color)
    (hp : b.get_piece from_ = some ⟨PieceType.Rook, c⟩)
    (hc : c = b.current_player) :
    (∀ d : Position, d ∈ get_valid_moves b from_ ↔
      (rayHit b c from_ 0 1 d ∨ rayHit b c from_ 0 (-1) d ∨
       rayHit b c from_ 1 0 d ∨ rayHit b c from_ (-1) 0 d)) ∧
    (get_valid_moves cornerRookBoard ⟨0, 0⟩).length = 14 ∧
    ((⟨0, 5⟩ : Position) ∈ get_valid_moves enemyRayBoard ⟨0, 0⟩ ∧
     (⟨0, 6⟩ : Position) ∉ get_valid_moves enemyRayBoard ⟨0, 0⟩ ∧
     (⟨0, 7⟩ : Position) ∉ get_valid_moves enemyRayBoard ⟨0, 0⟩) ∧
    ((⟨0, 4⟩ : Position) ∈ get_valid_moves friendlyRayBoard ⟨0, 0⟩ ∧
     (⟨0, 5⟩ : Position) ∉ get_valid_moves friendlyRayBoard ⟨0, 0⟩ ∧
     (⟨0, 6⟩ : Position) ∉ get_valid_moves friendlyRayBoard ⟨0, 0⟩) := by
  refine ⟨?_, by decide, by decide, by decide⟩
  intro d
  have hmoves : get_valid_moves b from_ = get_rook_moves b from_ c := by
    simp [get_valid_moves, hp, ← hc]
  rw [hmoves]
  unfold get_rook_moves
  simp only [List.mem_append]
  rw [mem_get_sliding_moves, mem_get_sliding_moves, mem_get_sliding_moves,
    mem_get_sliding_moves]
  tauto

theorem rook_moves_spec_witness :
    (get_valid_moves cornerRookBoard ⟨0, 0⟩).length = 14 :=
  (rook_moves_spec cornerRookBoard ⟨0, 0⟩ Color.White (by decide) rfl).2.1

/-!  C6: the castling field. -/

theorem castlingOf_spec : ∀ wkm wrh wra bkm brh bra : Bool,
    (('K' ∈ (castlingOf wkm wrh wra bkm brh bra).toList) ↔
      (wkm = false ∧ wrh = false)) ∧
    (('Q' ∈ (castlingOf wkm wrh wra bkm brh bra).toList) ↔
      (wkm = false ∧ wra = false)) ∧
    (('k' ∈ (castlingOf wkm wrh wra bkm brh bra).toList) ↔
      (bkm = false ∧ brh = false)) ∧
    (('q' ∈ (castlingOf wkm wrh wra bkm brh bra).toList) ↔
      (bkm = false ∧ bra = false)) ∧
    ((castlingOf wkm wrh wra bkm brh bra = "-") ↔
      ¬((wkm = false ∧ wrh = false) ∨ (wkm = false ∧ wra = false) ∨
        (bkm = false ∧ brh = false) ∨ (bkm = false ∧ bra = false))) ∧
    (castlingOf wkm wrh wra bkm brh bra = "-" ∨
      List.Sublist (castlingOf wkm wrh wra bkm brh bra).toList
        ['K', 'Q', 'k', 'q']) := by
  decide

/-- C6: the castling field of the FEN consists of the letters `K`,
`Q`, `k`, `q` in that fixed order, each present iff the matching king
flag and same-side rook flag are both unmoved, and is `-` when no
letter qualifies; with only `white_rook_h_moved` recorded on the
initial position, the field reads `Qkq` (omits `K`, keeps `Q k q`). -/
theorem castling_field_spec (b : ChessBoard) :
    (('K' ∈ (castlingField b).toList) ↔
      (b.white_king_moved = false ∧ b.white_rook_h_moved = false)) ∧
    (('Q' ∈ (castlingField b).toList) ↔
      (b.white_king_moved = false ∧ b.white_rook_a_moved = false)) ∧
    (('k' ∈ (castlingField b).toList) ↔
      (b.black_king_moved = false ∧ b.black_rook_h_moved = false)) ∧
    (('q' ∈ (castlingField b).toList) ↔
      (b.black_king_moved = false ∧ b.black_rook_a_moved = false)) ∧
    ((castlingField b = "-") ↔
      ¬((b.white_king_moved = false ∧ b.white_rook_h_moved = false) ∨
        (b.white_king_moved = false ∧ b.white_rook_a_moved = false) ∨
        (b.black_king_moved = false ∧ b.black_rook_h_moved = false) ∨
        (b.black_king_moved = false ∧ b.black_rook_a_moved = false))) ∧
    (castlingField b = "-" ∨
      List.Sublist (castlingField b).toList ['K', 'Q', 'k', 'q']) ∧
    to_fen { ChessBoard.new with white_rook_h_moved := true } =
      "rnbqkbnr/pppppppp/8/8/8/8/PPPPPPPP/RNBQKBNR w Qkq - 0 1" := by
  have h := castlingOf_spec b.white_king_moved b.white_rook_h_moved
    b.white_rook_a_moved b.black_king_moved b.black_rook_h_moved
    b.black_rook_a_moved
  exact ⟨h.1, h.2.1, h.2.2.1, h.2.2.2.1, h.2.2.2.2.1, h.2.2.2.2.2, by decide⟩

/-!  C1: the executor's failure taxonomy. -/

/-- C1: `make_move` fails with `EmptySource` exactly when the origin
is empty; otherwise with `WrongTurn` exactly when the origin piece is
the opponent's; otherwise with `IllegalDestination` exactly when the
destination is not in `get_valid_moves(from)`; and every failure
leaves the board exactly as before the call. -/
theorem make_move_failure_spec (b : ChessBoard) (m : Move) :
    ((make_move b m).1 = some MoveError.EmptySource ↔
      b.get_piece m.from_ = none) ∧
    ((make_move b m).1 = some MoveError.WrongTurn ↔
      ∃ p, b.get_piece m.from_ = some p ∧ p.color ≠ b.current_player) ∧
    ((make_move b m).1 = some MoveError.IllegalDestination ↔
      ∃ p, b.get_piece m.from_ = some p ∧ p.color = b.current_player ∧
        m.to_ ∉ get_valid_moves b m.from_) ∧
    (∀ e : MoveError, (make_move b m).1 = some e → (make_move b m).2 = b) := by
  cases hp : b.get_piece m.from_ with
  | none => simp [make_move, hp]
  | some p =>
    by_cases h1 : p.color ≠ b.current_player
    · simp [make_move, hp, h1]
    · push_neg at h1
      by_cases h2 : m.to_ ∉ get_valid_moves b m.from_
      · simp [make_move, hp, h1, h2]
      · simp [make_move, hp, h1, h2]

theorem make_move_failure_spec_witness :
    (make_move ChessBoard.new ⟨⟨4, 1⟩, ⟨4, 5⟩, none⟩).2 = ChessBoard.new :=
  (make_move_failure_spec ChessBoard.new ⟨⟨4, 1⟩, ⟨4, 5⟩, none⟩).2.2.2
    MoveError.IllegalDestination (by decide)

/-!  C2: movement-flag updates. -/

/-- C2 counterexample: on a board whose only piece is a white rook on
a4 (file 0, rank 3), the successful move a4→a5 sets
`white_rook_a_moved` even though the origin is not a1 — the update
tests only `move.from.file`, never the rank. -/
theorem rook_flag_counterexample :
    (make_move rookA4Board ⟨⟨0, 3⟩, ⟨0, 4⟩, none⟩).1 = none ∧
    (make_move rookA4Board ⟨⟨0, 3⟩, ⟨0, 4⟩, none⟩).2.white_rook_a_moved = true ∧
    rookA4Board.white_rook_a_moved = false ∧
    rookA4Board.get_piece ⟨0, 3⟩ = some ⟨PieceType.Rook, Color.White⟩ ∧
    (⟨0, 3⟩ : Position) ≠ ⟨0, 0⟩ := by
  decide

/-- C2 amended: after a successful `make_move` of a Rook, each
rook-moved flag becomes true exactly when it was already true or the
rook's color matches and `move.from.file` is the a-file (0) or h-file
(7) respectively — the rank of the origin is irrelevant; a rook moving
from any other file changes no flag, and a King move sets exactly that
color's king-moved flag. -/
theorem rook_flag_update (b : ChessBoard) (m : Move) (b' : ChessBoard) (p : Piece)
    (hp : b.get_piece m.from_ = some p) (hm : make_move b m = (none, b')) :
    (p.piece_type = PieceType.Rook →
      (b'.white_rook_a_moved = true ↔
        b.white_rook_a_moved = true ∨
          (p.color = Color.White ∧ m.from_.file.val = 0)) ∧
      (b'.white_rook_h_moved = true ↔
        b.white_rook_h_moved = true ∨
          (p.color = Color.White ∧ m.from_.file.val = 7)) ∧
      (b'.black_rook_a_moved = true ↔
        b.black_rook_a_moved = true ∨
          (p.color = Color.Black ∧ m.from_.file.val = 0)) ∧
      (b'.black_rook_h_moved = true ↔
        b.black_rook_h_moved = true ∨
          (p.color = Color.Black ∧ m.from_.file.val = 7)) ∧
      b'.white_king_moved = b.white_king_moved ∧
      b'.black_king_moved = b.black_king_moved) ∧
    (p.piece_type = PieceType.King →
      (p.color = Color.White → b'.white_king_moved = true ∧
        b'.black_king_moved = b.black_king_moved) ∧
      (p.color = Color.Black → b'.black_king_moved = true ∧
        b'.white_king_moved = b.white_king_moved) ∧
      b'.white_rook_a_moved = b.white_rook_a_moved ∧
      b'.white_rook_h_moved = b.white_rook_h_moved ∧
      b'.black_rook_a_moved = b.black_rook_a_moved ∧
      b'.black_rook_h_moved = b.black_rook_h_moved) := by
  simp only [make_move, hp] at hm
  by_cases h1 : p.color ≠ b.current_player
  · rw [if_pos h1] at hm
    exact absurd hm (by simp)
  rw [if_neg h1] at hm
  by_cases h2 : m.to_ ∉ get_valid_moves b m.from_
  · rw [if_pos h2] at hm
    exact absurd hm (by simp)
  rw [if_neg h2] at hm
  injection hm with hm1 hm2
  subst hm2
  constructor
  · intro hpt
    refine ⟨?_, ?_, ?_, ?_, ?_, ?_⟩
    · by_cases hc : p.color = Color.White ∧ m.from_.file.val = 0 <;>
        simp [hpt, hc]
    · by_cases hc : p.color = Color.White ∧ m.from_.file.val = 7 <;>
        simp [hpt, hc]
    · by_cases hc : p.color = Color.Black ∧ m.from_.file.val = 0 <;>
        simp [hpt, hc]
    · by_cases hc : p.color = Color.Black ∧ m.from_.file.val = 7 <;>
        simp [hpt, hc]
    · simp [hpt]
    · simp [hpt]
  · intro hpt
    refine ⟨?_, ?_, ?_, ?_, ?_, ?_⟩
    · intro hcol
      simp [hpt, hcol]
    · intro hcol
      simp [hpt, hcol]
    · simp [hpt]
    · simp [hpt]
    · simp [hpt]
    · simp [hpt]

theorem rook_flag_update_witness :
    (make_move rookA4Board ⟨⟨0, 3⟩, ⟨0, 4⟩, none⟩).2.white_rook_a_moved = true := by
  have h1 : (make_move rookA4Board ⟨⟨0, 3⟩, ⟨0, 4⟩, none⟩).1 = none := by decide
  have hm : make_move rookA4Board ⟨⟨0, 3⟩, ⟨0, 4⟩, none⟩ =
      (none, (make_move rookA4Board ⟨⟨0, 3⟩, ⟨0, 4⟩, none⟩).2) := by
    rw [← h1]
  exact (((rook_flag_update rookA4Board _ _ ⟨PieceType.Rook, Color.White⟩
    (by decide) hm).1 rfl).1).mpr (Or.inr ⟨rfl, by decide⟩)

/-!  C10: promotion handling. -/

/-- C10: `make_move` constrains the promotion type in no way — a pawn
arriving at the far rank with any supplied promotion type `t`
(including King and Pawn) leaves a piece of type `t` and the mover's
color on the destination; a promotion supplied on a non-Pawn move, or
on a pawn move not reaching the far rank, has no effect on the
result. -/
theorem promotion_spec (b : ChessBoard) (m : Move) (p : Piece) (t : PieceType)
    (hp : b.get_piece m.from_ = some p) :
    ((p.piece_type = PieceType.Pawn → m.promotion = some t →
      m.to_.rank.val = (if p.color = Color.White then 7 else 0) →
      (make_move b m).1 = none →
      ((make_move b m).2).board m.to_.rank m.to_.file =
        some ⟨t, p.color⟩) ∧
     ((p.piece_type ≠ PieceType.Pawn ∨
        m.to_.rank.val ≠ (if p.color = Color.White then 7 else 0)) →
      make_move b m = make_move b ⟨m.from_, m.to_, none⟩)) := by
  constructor
  · intro hpt hpr hrank hok
    simp only [make_move, hp] at hok ⊢
    by_cases h1 : p.color ≠ b.current_player
    · rw [if_pos h1] at hok
      exact absurd hok (by simp)
    rw [if_neg h1] at hok ⊢
    by_cases h2 : m.to_ ∉ get_valid_moves b m.from_
    · rw [if_pos h2] at hok
      exact absurd hok (by simp)
    rw [if_neg h2]
    simp only [hpr, hpt, hrank, if_pos rfl]
    simp [Grid.set]
  · intro hcond
    by_cases h1 : p.color ≠ b.current_player
    · simp [make_move, hp, h1]
    by_cases h2 : m.to_ ∉ get_valid_moves b m.from_
    · simp [make_move, hp, h1, h2]
    simp only [make_move, hp, if_neg h1, if_neg h2]
    cases hpr : m.promotion with
    | none => rfl
    | some pt =>
      rcases hcond with hpt | hrank
      · simp [hpt]
      · simp [hrank]

theorem promotion_spec_witness :
    (make_move pawnA7Board ⟨⟨0, 6⟩, ⟨0, 7⟩, some PieceType.King⟩).2.board 7 0 =
      some ⟨PieceType.King, Color.White⟩ :=
  (promotion_spec pawnA7Board ⟨⟨0, 6⟩, ⟨0, 7⟩, some PieceType.King⟩
    ⟨PieceType.Pawn, Color.White⟩ PieceType.King (by decide)).1 rfl rfl
    (by decide) (by decide)

end Shahmat
